import Mathlib

/-!
Shallow embedding of the validation / reconciliation core of the
huodongzhushou event-validator (source: `constants.ts` / `App.tsx` /
`PosterValidator.tsx`), together with proofs settling the frozen claims.

JavaScript strings are modelled as Lean `String`/`List Char`; JS numbers as
`WithBot (WithTop ℚ)` (`⊥`/`⊤` standing for the infinities) with `Option`
around them where NaN can arise; regular-expression patterns are kept as the
strings stored in the rule objects and compiled by an executable parser
(`compileRegex`) modelling `new RegExp`, with `none` playing the role of the
thrown `SyntaxError` for malformed patterns.  Matching is defined by a
Brzozowski-derivative matcher proved equivalent to an inductive language
semantics (`RMatch`).
-/

/-- The set recognised by the JS regex class `\s` and by `String.prototype.trim`
(ASCII whitespace, NBSP, the Unicode space separators, line/paragraph
separators and the BOM). -/
def isJsSpace (c : Char) : Bool :=
  c = ' ' || c = '\t' || c = '\n' || c.toNat = 11 || c.toNat = 12 || c = '\r' ||
  c.toNat = 0xA0 || c.toNat = 0x1680 || (0x2000 ≤ c.toNat && c.toNat ≤ 0x200A) ||
  c.toNat = 0x2028 || c.toNat = 0x2029 || c.toNat = 0x202F || c.toNat = 0x205F ||
  c.toNat = 0x3000 || c.toNat = 0xFEFF

/-- `String.prototype.trim` on the character list. -/
def jsTrim (cs : List Char) : List Char :=
  ((cs.dropWhile isJsSpace).reverse.dropWhile isJsSpace).reverse

/-- `String.prototype.trim`. -/
def jsTrimStr (s : String) : String := String.mk (jsTrim s.data)

/-- `str.replace(/\s/g, '')` (also `/\s+/g` with empty replacement):
removes every whitespace character. -/
def jsStripWS (s : String) : String := String.mk (s.data.filter (fun c => !(isJsSpace c)))

/-- Boolean list-prefix test (executable). -/
def listPrefixB : List Char → List Char → Bool
  | [], _ => true
  | _ :: _, [] => false
  | a :: as, b :: bs => a = b && listPrefixB as bs

/-- Boolean list-infix test (executable): some tail has the needle as a prefix. -/
def listInfixB (needle hay : List Char) : Bool :=
  hay.tails.any (listPrefixB needle)

/-- `hay.includes(needle)` for JS strings: substring containment. -/
def jsIncludes (hay needle : String) : Bool := listInfixB needle.data hay.data

/-- Numeric value of a list of ASCII digits (most significant first). -/
def natOfDigits (ds : List Char) : Nat :=
  ds.foldl (fun a c => 10 * a + (c.toNat - '0'.toNat)) 0

/-- The JS number line with the two infinities: `⊥` is `-Infinity`,
`⊤` is `+Infinity`, finite values are rationals. -/
abbrev JsNum : Type := WithBot (WithTop ℚ)

/-- A finite JS number. -/
def jsFin (q : ℚ) : JsNum := ((q : WithTop ℚ) : JsNum)

/-- `+Infinity`. -/
def jsPosInf : JsNum := ((⊤ : WithTop ℚ) : JsNum)

/-- `-Infinity`. -/
def jsNegInf : JsNum := (⊥ : JsNum)

/-- Parse a maximal run of decimal digits. -/
def spanDigits (cs : List Char) : List Char × List Char := cs.span Char.isDigit

/-- Decimal-literal prefix as used by both `parseFloat` and `Number`:
`digits`, `digits.digits?`, or `.digits`; the remainder is returned.
`none` when no digit occurs before the end of the syntactic form. -/
def parseDecimal (cs : List Char) : Option (ℚ × List Char) :=
  let (ip, r1) := spanDigits cs
  match r1 with
  | '.' :: r2 =>
      let (fp, r3) := spanDigits r2
      if ip.isEmpty && fp.isEmpty then none
      else some ((natOfDigits ip : ℚ) + (natOfDigits fp : ℚ) / ((10 : ℚ) ^ fp.length), r3)
  | _ => if ip.isEmpty then none else some ((natOfDigits ip : ℚ), r1)

/-- Optional exponent part `e`/`E` `sign? digits`; when the digits are missing
the exponent characters are not consumed (as in `parseFloat("1e")` = 1). -/
def withExponent (q : ℚ) (cs : List Char) : ℚ × List Char :=
  match cs with
  | e :: r1 =>
      if e = 'e' || e = 'E' then
        let (neg, r2) := match r1 with
          | '+' :: t => (false, t)
          | '-' :: t => (true, t)
          | _ => (false, r1)
        let (ds, r3) := spanDigits r2
        if ds.isEmpty then (q, cs)
        else if neg then (q / ((10 : ℚ) ^ natOfDigits ds), r3)
        else (q * ((10 : ℚ) ^ natOfDigits ds), r3)
      else (q, cs)
  | [] => (q, cs)

/-- `parseFloat`: skip leading whitespace, optional sign, `Infinity` or a
decimal literal prefix; trailing garbage is ignored; `none` is NaN. -/
def jsParseFloat (s : String) : Option JsNum :=
  let cs := s.data.dropWhile isJsSpace
  let (neg, cs1) : Bool × List Char := match cs with
    | '+' :: t => (false, t)
    | '-' :: t => (true, t)
    | _ => (false, cs)
  if listPrefixB "Infinity".data cs1 then
    some (if neg then jsNegInf else jsPosInf)
  else
    match parseDecimal cs1 with
    | none => none
    | some (q, rest) =>
        let (q2, _) := withExponent q rest
        some (jsFin (if neg then -q2 else q2))

/-- All-hex-digits value, `none` when empty or a non-hex digit occurs. -/
def parseRadix (radix : Nat) (cs : List Char) : Option ℚ :=
  if cs.isEmpty then none
  else cs.foldl (fun acc c =>
    match acc with
    | none => none
    | some a =>
        let v : Nat :=
          if '0' ≤ c && c ≤ '9' then c.toNat - '0'.toNat
          else if 'a' ≤ c && c ≤ 'f' then c.toNat - 'a'.toNat + 10
          else if 'A' ≤ c && c ≤ 'F' then c.toNat - 'A'.toNat + 10
          else 99
        if v < radix then some (radix * a + v) else none) (some 0) |>.map (fun n => (n : ℚ))

/-- Signed decimal form for `Number()`: the whole remaining input must be
consumed (trailing garbage means NaN, unlike `parseFloat`). -/
def jsNumberDec (cs : List Char) : Option JsNum :=
  let (neg, cs1) : Bool × List Char := match cs with
    | '+' :: t => (false, t)
    | '-' :: t => (true, t)
    | _ => (false, cs)
  if cs1 = "Infinity".data then some (if neg then jsNegInf else jsPosInf)
  else
    match parseDecimal cs1 with
    | none => none
    | some (q, rest) =>
        match withExponent q rest with
        | (q2, []) => some (jsFin (if neg then -q2 else q2))
        | _ => none

/-- `Number()` conversion of a string: trim, empty means `0`, `0x`/`0o`/`0b`
radix literals (unsigned), otherwise a fully-consumed signed decimal literal;
`none` is NaN. -/
def jsNumberConv (s : String) : Option JsNum :=
  let cs := jsTrim s.data
  if cs.isEmpty then some (jsFin 0)
  else
    match cs with
    | '0' :: x :: rest =>
        if x = 'x' || x = 'X' then (parseRadix 16 rest).map jsFin
        else if x = 'o' || x = 'O' then (parseRadix 8 rest).map jsFin
        else if x = 'b' || x = 'B' then (parseRadix 2 rest).map jsFin
        else jsNumberDec cs
    | _ => jsNumberDec cs

/-! ### Regular expressions: the dialect used by the stored rule patterns -/

/-- One alternative inside a character class, plus the escape classes `\d`,
`\s` and the dot. -/
inductive CItem where
  | single (c : Char)
  | range (lo hi : Char)
  | digit
  | space
  | dot
deriving Repr, DecidableEq

/-- Whether a class item accepts a character (`\d` is the ASCII digits,
`\s` is `isJsSpace`, `.` is anything but a line terminator). -/
def citemMatch : CItem → Char → Bool
  | .single d, c => c = d
  | .range lo hi, c => lo ≤ c && c ≤ hi
  | .digit, c => c.isDigit
  | .space, c => isJsSpace c
  | .dot, c => !(c = '\n' || c = '\r' || c.toNat = 0x2028 || c.toNat = 0x2029)

/-- Regular expressions (quantifiers are desugared by the parser). -/
inductive Regex where
  | fail
  | eps
  | cls (items : List CItem)
  | alt (r1 r2 : Regex)
  | cat (r1 r2 : Regex)
  | star (r : Regex)
deriving Repr, DecidableEq

/-- A character class accepts a character when some item does. -/
def clsMatch (items : List CItem) (c : Char) : Bool := items.any (citemMatch · c)

/-- Whether a regex accepts the empty string. -/
def nullable : Regex → Bool
  | .fail => false
  | .eps => true
  | .cls _ => false
  | .alt r1 r2 => nullable r1 || nullable r2
  | .cat r1 r2 => nullable r1 && nullable r2
  | .star _ => true

/-- Brzozowski derivative by one character. -/
def rderiv : Regex → Char → Regex
  | .fail, _ => .fail
  | .eps, _ => .fail
  | .cls items, c => if clsMatch items c then .eps else .fail
  | .alt r1 r2, c => .alt (rderiv r1 c) (rderiv r2 c)
  | .cat r1 r2, c =>
      if nullable r1 then .alt (.cat (rderiv r1 c) r2) (rderiv r2 c)
      else .cat (rderiv r1 c) r2
  | .star r, c => .cat (rderiv r c) (.star r)

/-- Executable whole-string matcher via iterated derivatives. -/
def fullMatchL (r : Regex) (cs : List Char) : Bool := nullable (cs.foldl rderiv r)

/-- The language of a regex, as an inductive predicate. -/
inductive RMatch : Regex → List Char → Prop where
  | eps : RMatch .eps []
  | cls {items : List CItem} {c : Char} :
      clsMatch items c = true → RMatch (.cls items) [c]
  | altL {r1 r2 : Regex} {s : List Char} : RMatch r1 s → RMatch (.alt r1 r2) s
  | altR {r1 r2 : Regex} {s : List Char} : RMatch r2 s → RMatch (.alt r1 r2) s
  | cat {r1 r2 : Regex} {s1 s2 : List Char} :
      RMatch r1 s1 → RMatch r2 s2 → RMatch (.cat r1 r2) (s1 ++ s2)
  | starNil {r : Regex} : RMatch (.star r) []
  | starCons {r : Regex} {c : Char} {s1 s2 : List Char} :
      RMatch r (c :: s1) → RMatch (.star r) s2 → RMatch (.star r) ((c :: s1) ++ s2)

/-- A compiled pattern: the `^` / `$` anchors stripped off the ends, plus the
body regex; `RegExp.prototype.test` semantics are reconstructed from the
anchor flags. -/
structure CompiledRegex where
  anchorStart : Bool
  anchorEnd : Bool
  re : Regex
deriving Repr, DecidableEq

/-- `RegExp.prototype.test` (non-multiline): an unanchored pattern may match
any substring, `^` pins the match to the start, `$` to the end. -/
def regexTest (cr : CompiledRegex) (s : String) : Bool :=
  match cr.anchorStart, cr.anchorEnd with
  | true, true => fullMatchL cr.re s.data
  | true, false => s.data.inits.any (fullMatchL cr.re)
  | false, true => s.data.tails.any (fullMatchL cr.re)
  | false, false => s.data.tails.any (fun t => t.inits.any (fullMatchL cr.re))

/-- Declarative counterpart of `regexTest`: some substring, constrained by the
anchors, is in the language of the body. -/
def crMatchProp (cr : CompiledRegex) (s : String) : Prop :=
  ∃ pre mid suf : List Char,
    s.data = pre ++ mid ++ suf ∧
    (cr.anchorStart = true → pre = []) ∧
    (cr.anchorEnd = true → suf = []) ∧
    RMatch cr.re mid

/-- `r` repeated exactly `n` times, for the quantifier with a single count. -/
def repeatExact (r : Regex) : Nat → Regex
  | 0 => .eps
  | n + 1 => .cat r (repeatExact r n)

/-- `n` optional copies of `r`, for the tail of a two-count quantifier. -/
def repeatOpt (r : Regex) : Nat → Regex
  | 0 => .eps
  | n + 1 => .cat (.alt .eps r) (repeatOpt r n)

/-- The regex metacharacters escaped by the synthesizer's
`replace(/[.*+?^${}()|[\]\\]/g, '\\$&')` and rejected as bare literals by the
pattern parser. -/
def regexMeta : List Char :=
  ['.', '*', '+', '?', '^', '$', '\\', '(', ')', '[', ']', '|', '\x7b', '\x7d']

/-- Escape handling inside a character class. -/
def classEscape (e : Char) : Option CItem :=
  if e = 'd' then some .digit
  else if e = 's' then some .space
  else if e.isAlphanum then none
  else some (.single e)

/-- Escape handling outside a class. -/
def rootEscape (e : Char) : Option Regex :=
  if e = 'd' then some (.cls [.digit])
  else if e = 's' then some (.cls [.space])
  else if e.isAlphanum then none
  else some (.cls [.single e])

/-- Parse the body of `[...]` (negated classes and escape ranges are treated
as unsupported, i.e. compilation fails). -/
def parseClassBody (fuel : Nat) (cs : List Char) (acc : List CItem) :
    Option (List CItem × List Char) :=
  match fuel with
  | 0 => none
  | fuel + 1 =>
    match cs with
    | [] => none
    | ']' :: rest => some (acc.reverse, rest)
    | '\\' :: e :: rest =>
        (match classEscape e with
         | some it => parseClassBody fuel rest (it :: acc)
         | none => none)
    | '\\' :: [] => none
    | '-' :: rest =>
        (match rest with
         | ']' :: rest2 => some ((CItem.single '-' :: acc).reverse, rest2)
         | _ =>
           if acc.isEmpty then parseClassBody fuel rest (CItem.single '-' :: acc)
           else
             match acc, rest with
             | CItem.single lo :: accRest, hi :: rest2 =>
                 if hi = '\\' || hi = ']' || hi < lo then none
                 else parseClassBody fuel rest2 (CItem.range lo hi :: accRest)
             | _, _ => none)
    | c :: rest =>
        if c = '^' && acc.isEmpty then none
        else parseClassBody fuel rest (CItem.single c :: acc)

/-- Parse a `\x7bn\x7d` / `\x7bn,\x7d` / `\x7bn,m\x7d` quantifier suffix (the
opening brace is already consumed) and apply it to `r`. -/
def parseRepeatSuffix (r : Regex) (cs : List Char) : Option (Regex × List Char) :=
  let (ds1, r1) := spanDigits cs
  if ds1.isEmpty then none
  else
    let n := natOfDigits ds1
    match r1 with
    | '\x7d' :: r2 => some (repeatExact r n, r2)
    | ',' :: r2 =>
        (match r2 with
         | '\x7d' :: r3 => some (.cat (repeatExact r n) (.star r), r3)
         | _ =>
           let (ds2, r3) := spanDigits r2
           if ds2.isEmpty then none
           else
             let m := natOfDigits ds2
             match r3 with
             | '\x7d' :: r4 =>
                 if m < n then none
                 else some (.cat (repeatExact r n) (repeatOpt r (m - n)), r4)
             | _ => none)
    | _ => none

mutual

/-- Alternation level of the pattern grammar. -/
def parseAltRE : Nat → List Char → Option (Regex × List Char)
  | 0, _ => none
  | fuel + 1, cs =>
    match parseCatRE fuel cs with
    | none => none
    | some (r, rest) =>
      match rest with
      | '|' :: rest2 =>
          (match parseAltRE fuel rest2 with
           | some (r2, rest3) => some (.alt r r2, rest3)
           | none => none)
      | _ => some (r, rest)

/-- Concatenation level. -/
def parseCatRE : Nat → List Char → Option (Regex × List Char)
  | 0, _ => none
  | fuel + 1, cs =>
    match cs with
    | [] => some (.eps, [])
    | c :: _ =>
      if c = '|' || c = ')' then some (.eps, cs)
      else
        match parsePieceRE fuel cs with
        | none => none
        | some (r, rest) =>
          match parseCatRE fuel rest with
          | some (r2, rest2) => some (.cat r r2, rest2)
          | none => none

/-- An atom with an optional quantifier. -/
def parsePieceRE : Nat → List Char → Option (Regex × List Char)
  | 0, _ => none
  | fuel + 1, cs =>
    match parseAtomRE fuel cs with
    | none => none
    | some (r, rest) =>
      match rest with
      | '*' :: rest2 => some (.star r, rest2)
      | '+' :: rest2 => some (.cat r (.star r), rest2)
      | '?' :: rest2 => some (.alt .eps r, rest2)
      | '\x7b' :: rest2 => parseRepeatSuffix r rest2
      | _ => some (r, rest)

/-- A group, class, escape, dot or bare literal. -/
def parseAtomRE : Nat → List Char → Option (Regex × List Char)
  | 0, _ => none
  | fuel + 1, cs =>
    match cs with
    | [] => none
    | '(' :: rest =>
        (match parseAltRE fuel rest with
         | some (r, ')' :: rest2) => some (r, rest2)
         | _ => none)
    | '[' :: rest =>
        (match parseClassBody (rest.length + 1) rest [] with
         | some (items, rest2) => some (.cls items, rest2)
         | none => none)
    | '\\' :: e :: rest =>
        (match rootEscape e with
         | some r => some (r, rest)
         | none => none)
    | '\\' :: [] => none
    | '.' :: rest => some (.cls [.dot], rest)
    | c :: rest =>
        if regexMeta.contains c then none
        else some (.cls [.single c], rest)

end

/-- Number of backslashes immediately preceding the end of the list. -/
def countTrailingBackslashes (cs : List Char) : Nat :=
  (cs.reverse.takeWhile (fun c => c = '\\')).length

/-- `new RegExp(pattern)` for the dialect the application stores: a leading
`^` and an unescaped trailing `$` become anchor flags, the rest must parse as
a regex; `none` models the thrown `SyntaxError`. -/
def compileRegex (pat : String) : Option CompiledRegex :=
  let cs := pat.data
  let p1 : Bool × List Char := match cs with
    | '^' :: t => (true, t)
    | _ => (false, cs)
  let p2 : Bool × List Char :=
    if p1.2 ≠ [] ∧ p1.2.getLast? = some '$' ∧ countTrailingBackslashes p1.2.dropLast % 2 = 0
    then (true, p1.2.dropLast)
    else (false, p1.2)
  match parseAltRE (8 * p2.2.length + 8) p2.2 with
  | some (r, []) => some ⟨p1.1, p2.1, r⟩
  | _ => none

/-- Compile a pattern and whole-string-match it (used to state that a pattern
does or does not fully match a given string). -/
def fullMatchPattern (pat s : String) : Bool :=
  match compileRegex pat with
  | some cr => fullMatchL cr.re s.data
  | none => false

/-- Compile a pattern and `test` it, `false` when compilation fails. -/
def testPattern (pat s : String) : Bool :=
  match compileRegex pat with
  | some cr => regexTest cr s
  | none => false

/-! ### Time format validation (`constants.ts`) -/

/-- A stored time-format rule (`TimeFormatItem` in `types.ts`). -/
structure TimeFormatItem where
  id : String
  name : String
  pattern : String
  isSystem : Bool := false
deriving Repr, DecidableEq

/-- The result record of `validateTimeFormat`. -/
structure TimeValidation where
  isValid : Bool
  message : Option String := none
deriving Repr, DecidableEq

/-- One extracted month/day pair. -/
structure DatePair where
  m : Nat
  d : Nat
deriving Repr, DecidableEq

/-- Scan for the first closing bracket, aborting at a line terminator
(the lazy `.*?` of `/(\(.*?\)|（.*?）)/g` cannot cross one); returns the
characters after the closing bracket. -/
def findCloseAt (close : Char) : List Char → Option (List Char)
  | [] => none
  | c :: rest =>
      if c = close then some rest
      else if c = '\n' || c = '\r' || c.toNat = 0x2028 || c.toNat = 0x2029 then none
      else findCloseAt close rest

/-- Worker for `removeBrackets`; the fuel starts at the list length and is an
upper bound on the number of steps (each step consumes at least one char). -/
def removeBracketsGo : Nat → List Char → List Char
  | 0, cs => cs
  | _ + 1, [] => []
  | fuel + 1, c :: rest =>
      if c = '(' then
        match findCloseAt ')' rest with
        | some rest2 => removeBracketsGo fuel rest2
        | none => c :: removeBracketsGo fuel rest
      else if c = '（' then
        match findCloseAt '）' rest with
        | some rest2 => removeBracketsGo fuel rest2
        | none => c :: removeBracketsGo fuel rest
      else c :: removeBracketsGo fuel rest

/-- `str.replace(/(\(.*?\)|（.*?）)/g, '')`: drop every shortest
parenthesised group, half-width or full-width. -/
def removeBrackets (cs : List Char) : List Char := removeBracketsGo cs.length cs

/-- The cleaning step of `validateTimeFormat`:
`timeStr.replace(/(\(.*?\)|（.*?）)/g, '').trim()`. -/
def cleanTime (s : String) : String := String.mk (jsTrim (removeBrackets s.data))

/-- Separator class `[月 . / -]` of the date-extraction regex. -/
def isDateSep (c : Char) : Bool := c = '月' || c = '.' || c = '/' || c = '-'

/-- `\s*` (greedy, deterministic here since the following classes are
disjoint from whitespace). -/
def skipJsSpaces (cs : List Char) : List Char := cs.dropWhile isJsSpace

/-- Continuation of a date match after the first number has been read:
`\s*[月 . / -]\s*(\d{1,2})\s*[日]?` — the second digit group is greedy and
never needs to backtrack because everything after it is optional. -/
def matchDateAfterFirst (m : Nat) (cs : List Char) : Option (Nat × Nat × List Char) :=
  match skipJsSpaces cs with
  | sep :: rest =>
      if isDateSep sep then
        match skipJsSpaces rest with
        | d1 :: r1 =>
            if d1.isDigit then
              let p : Nat × List Char :=
                match r1 with
                | d2 :: r2 =>
                    if d2.isDigit then (10 * (d1.toNat - '0'.toNat) + (d2.toNat - '0'.toNat), r2)
                    else (d1.toNat - '0'.toNat, r1)
                | [] => (d1.toNat - '0'.toNat, r1)
              let r3 := skipJsSpaces p.2
              match r3 with
              | '日' :: r4 => some (m, p.1, r4)
              | _ => some (m, p.1, r3)
            else none
        | [] => none
      else none
  | [] => none

/-- Attempt of `/(\d{1,2})\s*[月 . / -]\s*(\d{1,2})\s*[日]?/` at the head of
the list: the first `\d{1,2}` is greedy (two digits) and backtracks to one
digit when the rest of the pattern then fails. -/
def matchDateAt (cs : List Char) : Option (Nat × Nat × List Char) :=
  match cs with
  | c1 :: rest1 =>
      if c1.isDigit then
        match rest1 with
        | c2 :: rest2 =>
            if c2.isDigit then
              match matchDateAfterFirst (10 * (c1.toNat - '0'.toNat) + (c2.toNat - '0'.toNat)) rest2 with
              | some r => some r
              | none => matchDateAfterFirst (c1.toNat - '0'.toNat) rest1
            else matchDateAfterFirst (c1.toNat - '0'.toNat) rest1
        | [] => matchDateAfterFirst (c1.toNat - '0'.toNat) rest1
      else none
  | [] => none

/-- Worker for `extractDates` (left-to-right global `exec` loop; on failure
the start position advances by one, on success past the match). -/
def extractGo : Nat → List Char → List DatePair
  | 0, _ => []
  | _ + 1, [] => []
  | fuel + 1, c :: rest =>
      match matchDateAt (c :: rest) with
      | some (m, d, rest2) => ⟨m, d⟩ :: extractGo fuel rest2
      | none => extractGo fuel rest

/-- All matches of the loose date regex
`/(\d{1,2})\s*[月 . / -]\s*(\d{1,2})\s*[日]?/g` over the string, in order. -/
def extractDates (cs : List Char) : List DatePair := extractGo cs.length cs

/-- `[0, 31, 29, 31, 30, 31, 30, 31, 31, 30, 31, 30, 31]` — February is
permissively capped at 29. -/
def daysInMonth : List Nat := [0, 31, 29, 31, 30, 31, 30, 31, 31, 30, 31, 30, 31]

/-- `` `月份 ${m} 无效 (需1-12)` ``. -/
def monthMsg (m : Nat) : String := "月份 " ++ toString m ++ " 无效 (需1-12)"

/-- `` `${m}月只有${daysInMonth[m]}天，无法设置为${d}日` ``. -/
def dayMsg (m d : Nat) : String :=
  toString m ++ "月只有" ++ toString (daysInMonth.getD m 0) ++ "天，无法设置为" ++ toString d ++ "日"

/-- `"结束时间不能早于开始时间"`. -/
def rangeMsg : String := "结束时间不能早于开始时间"

/-- `"时间不能为空"`. -/
def emptyMsg : String := "时间不能为空"

/-- `"格式不符合任何已知规则 (如: X月X日)"`. -/
def noFormatMsg : String := "格式不符合任何已知规则 (如: X月X日)"

/-- A pair passes the existence check of stage 2. -/
def pairOk (p : DatePair) : Prop :=
  1 ≤ p.m ∧ p.m ≤ 12 ∧ 1 ≤ p.d ∧ p.d ≤ daysInMonth.getD p.m 0

instance (p : DatePair) : Decidable (pairOk p) := by
  unfold pairOk
  infer_instance

/-- The message produced by the existence loop for an offending pair. -/
def existMsg (p : DatePair) : String :=
  if p.m < 1 ∨ 12 < p.m then monthMsg p.m else dayMsg p.m p.d

/-- The `for (const date of dates)` existence loop: first offending pair's
message, `none` when all pairs pass. -/
def firstExistenceError : List DatePair → Option String
  | [] => none
  | p :: rest =>
      if p.m < 1 ∨ 12 < p.m then some (monthMsg p.m)
      else if p.d < 1 ∨ daysInMonth.getD p.m 0 < p.d then some (dayMsg p.m p.d)
      else firstExistenceError rest

/-- `/[-至]/.test(str)`. -/
def hasRangeSep (cs : List Char) : Bool := cs.any (fun c => c = '-' || c = '至')

/-- `/\d{4}年/.test(str)`: four consecutive digits followed by `年`,
anywhere in the string. -/
def hasYearToken : List Char → Bool
  | c1 :: c2 :: c3 :: c4 :: c5 :: rest =>
      (c1.isDigit && c2.isDigit && c3.isDigit && c4.isDigit && c5 = '年') ||
      hasYearToken (c2 :: c3 :: c4 :: c5 :: rest)
  | _ => false

/-- Body of `checkLogicalValidity` once the extracted pairs and the two
string tests are in hand: empty extraction is valid, then the existence loop,
then (for exactly two pairs with a range separator) the ordering rule with
the December-to-January and explicit-year exceptions. -/
def checkLogicalCore (dates : List DatePair) (rangeSep yearTok : Bool) : Option String :=
  if dates.isEmpty then none
  else
    match firstExistenceError dates with
    | some msg => some msg
    | none =>
        if dates.length = 2 ∧ rangeSep = true then
          if (dates.getD 0 ⟨0, 0⟩).m = 12 ∧ (dates.getD 1 ⟨0, 0⟩).m = 1 then none
          else if (dates.getD 1 ⟨0, 0⟩).m * 100 + (dates.getD 1 ⟨0, 0⟩).d <
                  (dates.getD 0 ⟨0, 0⟩).m * 100 + (dates.getD 0 ⟨0, 0⟩).d then
            if yearTok = true then none else some rangeMsg
          else none
        else none

/-- `checkLogicalValidity` from `constants.ts`: `none` when logically valid,
otherwise the error message. -/
def checkLogicalValidity (str : String) : Option String :=
  checkLogicalCore (extractDates str.data) (hasRangeSep str.data) (hasYearToken str.data)

/-- Stage 1 of `validateTimeFormat`: `formats.some(fmt => { try { return new
RegExp(fmt.pattern).test(cleanStr) } catch { return false } })`. -/
def stage1Match (clean : String) (formats : List TimeFormatItem) : Bool :=
  formats.any (fun fmt =>
    match compileRegex fmt.pattern with
    | none => false
    | some cr => regexTest cr clean)

/-- `validateTimeFormat` from `constants.ts` (the local `cleanStr` constant
is inlined). -/
def validateTimeFormat (timeStr : String) (formats : List TimeFormatItem) : TimeValidation :=
  if timeStr = "" then ⟨false, some emptyMsg⟩
  else if !(stage1Match (cleanTime timeStr) formats) then ⟨false, some noFormatMsg⟩
  else
    match checkLogicalValidity (cleanTime timeStr) with
    | some msg => ⟨false, some msg⟩
    | none => ⟨true, none⟩

/-! ### Location recommendation (`constants.ts`) -/

/-- An address-library entry. -/
structure AddressLibraryItem where
  id : String
  name : String
deriving Repr, DecidableEq

/-- `getRecommendedLocation` from `constants.ts`: falsy (empty) input yields
`null`; otherwise the first entry whose name contains the trimmed input, else
the first entry whose name the trimmed input contains, else `null`. -/
def getRecommendedLocation (input : String) (library : List AddressLibraryItem) :
    Option String :=
  if input = "" then none
  else
    let clean := jsTrimStr input
    match library.find? (fun item => jsIncludes item.name clean) with
    | some item => some item.name
    | none =>
        match library.find? (fun item => jsIncludes clean item.name) with
        | some item => some item.name
        | none => none

/-- Modelled from the spec's words for the refinement comparison (claim C6):
"Trims input; returns the first library entry whose name contains the trimmed
input as a substring, else the first library entry that is itself a substring
of the trimmed input, else null" — note: no emptiness guard. -/
def recommendSpec (input : String) (library : List AddressLibraryItem) :
    Option String :=
  let clean := jsTrimStr input
  match library.find? (fun item => jsIncludes item.name clean) with
  | some item => some item.name
  | none =>
      match library.find? (fun item => jsIncludes clean item.name) with
      | some item => some item.name
      | none => none

/-! ### Regex synthesis from an example (`generateRegexFromTime`) -/

/-- `replace(/[.*+?^$\x7b\x7d()|[\]\\]/g, '\\$&')`: prepend a backslash to
every regex metacharacter. -/
def escapeRegexChars : List Char → List Char
  | [] => []
  | c :: rest =>
      if regexMeta.contains c then '\\' :: c :: escapeRegexChars rest
      else c :: escapeRegexChars rest

/-- Replacement for one maximal digit run: length four becomes the year
class, anything else the 1-to-2-digit class. -/
def digitRunClass (n : Nat) : List Char :=
  if n = 4 then "\\d\x7b4\x7d".data else "\\d\x7b1,2\x7d".data

/-- Worker for `replaceDigitRuns` (fuel bounds the steps by the length). -/
def replaceDigitRunsGo : Nat → List Char → List Char
  | 0, cs => cs
  | _ + 1, [] => []
  | fuel + 1, c :: rest =>
      if c.isDigit then
        let p := spanDigits rest
        digitRunClass (1 + p.1.length) ++ replaceDigitRunsGo fuel p.2
      else c :: replaceDigitRunsGo fuel rest

/-- `replace(/\d+/g, ...)`: rewrite every maximal digit run. -/
def replaceDigitRuns (cs : List Char) : List Char := replaceDigitRunsGo cs.length cs

/-- `generateRegexFromTime` from `constants.ts`: clean brackets and trim,
escape metacharacters, generalise digit runs, anchor both ends. -/
def generateRegexFromTime (input : String) : String :=
  let cleaned := jsTrim (removeBrackets input.data)
  let escaped := escapeRegexChars cleaned
  let pattern := replaceDigitRuns escaped
  String.mk ('^' :: pattern ++ ['$'])

/-! ### Spreadsheet header / column classification (`handleExcelImport`) -/

/-- `String(c).trim().replace(/\s+/g, '')` — trimming then deleting all
whitespace is just deleting all whitespace. -/
def normCell (s : String) : String := jsStripWS (jsTrimStr s)

/-- Header score of one row: +10 per keyword group found in some cell. -/
def hdrScore (row : List String) : Nat :=
  let ns := row.map normCell
  (if ns.any (fun s => jsIncludes s "序号") then 10 else 0) +
  (if ns.any (fun s =>
      (jsIncludes s "名称" || jsIncludes s "活动" || jsIncludes s "内容") &&
      !(jsIncludes s "时间") && !(jsIncludes s "地点")) then 10 else 0) +
  (if ns.any (fun s => jsIncludes s "时间" || jsIncludes s "日期") then 10 else 0) +
  (if ns.any (fun s => jsIncludes s "地点" || jsIncludes s "地址" || jsIncludes s "场馆") then 10 else 0)

/-- The header-detection loop: scan the first 20 rows, keep the first row
whose score strictly exceeds the running maximum (initially 0); `none` when
every row scores 0. -/
def findHeaderRow (rows : List (List String)) : Option Nat :=
  ((rows.take 20).enum.foldl
    (fun acc p => if hdrScore p.2 > acc.2 then (some p.1, hdrScore p.2) else acc)
    ((none : Option Nat), 0)).1

/-- The inferred column layout (`-1` becomes `none`). -/
structure ColMap where
  serial : Option Nat
  name : Option Nat
  time : Option Nat
  location : Option Nat
deriving Repr, DecidableEq

/-- Column roles read off the chosen header row: per-cell keyword regexes
(later matches overwrite earlier ones), then the positional defaults. -/
def colMapFromHeader (row : List String) : ColMap :=
  let base := (row.map normCell).enum.foldl
    (fun m p =>
      let cell := p.2
      let idx := p.1
      let m1 := if jsIncludes cell "序号" then { m with serial := some idx } else m
      let m2 :=
        if (jsIncludes cell "名称" || jsIncludes cell "活动" || jsIncludes cell "内容" ||
            jsIncludes cell "项目") &&
           !(jsIncludes cell "时间" || jsIncludes cell "日期" || jsIncludes cell "地点" ||
             jsIncludes cell "地址" || jsIncludes cell "场馆")
        then { m1 with name := some idx } else m1
      let m3 := if jsIncludes cell "时间" || jsIncludes cell "日期" then { m2 with time := some idx } else m2
      if jsIncludes cell "地点" || jsIncludes cell "地址" || jsIncludes cell "场馆"
      then { m3 with location := some idx } else m3)
    (⟨none, none, none, none⟩ : ColMap)
  match base.name with
  | some n =>
      { base with
        time := match base.time with | none => some (n + 1) | t => t
        location := match base.location with | none => some (n + 2) | l => l }
  | none =>
      match base.serial with
      | some sIdx => { base with name := some (sIdx + 1), time := some (sIdx + 2), location := some (sIdx + 3) }
      | none => base

/-- `Number(rawData[0][0])`, `none` when the cell is missing or NaN. -/
def firstCellNumber (rows : List (List String)) : Option JsNum :=
  match rows with
  | (c :: _) :: _ => jsNumberConv c
  | _ :: _ => none
  | [] => none

/-- Column-role inference of `handleExcelImport`: header-based when a header
row was found, otherwise the positional fallback guarded by
`rawData.length > 1` and `!isNaN(Number(rawData[0][0]))`. -/
def inferColMap (rows : List (List String)) : ColMap :=
  match findHeaderRow rows with
  | some i => colMapFromHeader (rows.getD i [])
  | none =>
      if 1 < rows.length ∧ (firstCellNumber rows).isSome = true
      then ⟨some 0, some 1, some 2, some 3⟩
      else ⟨none, some 0, some 1, some 2⟩

/-! ### Reconciliation engine (`performValidation` in `PosterValidator.tsx`) -/

/-- An event row (`AppEvent` in `types.ts`). -/
structure AppEvent where
  id : String
  serialNo : String
  name : String
  time : String
  location : String
  isTimeValid : Bool := true
  isLocationValid : Bool := true
  validationMessage : Option String := none
deriving Repr, DecidableEq

/-- A poster-extracted row (`Partial<AppEvent>`): every field may be absent. -/
structure PosterEvent where
  serialNo : Option String := none
  name : Option String := none
  time : Option String := none
  location : Option String := none
deriving Repr, DecidableEq

/-- The per-row comparison status. -/
inductive RStatus where
  | matched
  | mismatch
  | missingInPoster
  | extraInPoster
deriving Repr, DecidableEq

/-- One row of the comparison result (`ValidationResult`). -/
structure VResult where
  serial : String
  excelEvent : Option AppEvent
  posterEvent : Option PosterEvent
  status : RStatus
  diffName : Bool
  diffTime : Bool
  diffLoc : Bool
deriving Repr, DecidableEq

/-- The two `findIndex` probes over unused poster rows: exact `serialNo`
equality first, then truthy poster name contained in the excel name. -/
def findPosterMatch (used : List Nat) (ex : AppEvent) (poster : List PosterEvent) :
    Option (Nat × PosterEvent) :=
  match poster.enum.find? (fun p =>
      !(used.contains p.1) && decide (p.2.serialNo = some ex.serialNo)) with
  | some pr => some pr
  | none =>
      poster.enum.find? (fun p =>
        !(used.contains p.1) &&
        (match p.2.name with
         | some n => !(n = "") && jsIncludes ex.name n
         | none => false))

/-- One step of the excel loop, threading the used-index set and the result
list. -/
def reconcileStep (poster : List PosterEvent) (acc : List Nat × List VResult)
    (ex : AppEvent) : List Nat × List VResult :=
  match findPosterMatch acc.1 ex poster with
  | some (idx, p) =>
      let dn := !(decide (p.name = some ex.name))
      let dt := !(decide (p.time.map jsStripWS = some (jsStripWS ex.time)))
      let dl := !(decide (p.location.map jsStripWS = some (jsStripWS ex.location)))
      let st := if dn || dt || dl then RStatus.mismatch else RStatus.matched
      (acc.1 ++ [idx], acc.2 ++ [⟨ex.serialNo, some ex, some p, st, dn, dt, dl⟩])
  | none =>
      (acc.1, acc.2 ++ [⟨ex.serialNo, some ex, none, RStatus.missingInPoster, true, true, true⟩])

/-- The result list before the final sort: the excel pass followed by the
leftover poster rows (`extra_in_poster`, serial `pItem.serialNo || '?'`). -/
def performValidationUnsorted (excel : List AppEvent) (poster : List PosterEvent) :
    List VResult :=
  let st := excel.foldl (reconcileStep poster) ([], [])
  st.2 ++ (poster.enum.filter (fun p => !(st.1.contains p.1))).map (fun p =>
    ⟨(match p.2.serialNo with
      | some s => if s = "" then "?" else s
      | none => "?"),
     none, some p.2, RStatus.extraInPoster, true, true, true⟩)

/-- The comparator key of `results.sort((a, b) => ...)`:
`parseFloat(serial) || 9999` — NaN and 0 both fall back to the sentinel. -/
def sortKey (r : VResult) : JsNum :=
  match jsParseFloat r.serial with
  | none => jsFin 9999
  | some v => if v = jsFin 0 then jsFin 9999 else v

/-- Stable insertion with respect to `sortKey` (an element is placed before
the first strictly-later-keyed element; among equal keys the earlier original
element stays first). -/
def insertByKey (x : VResult) : List VResult → List VResult
  | [] => [x]
  | y :: ys => if sortKey x ≤ sortKey y then x :: y :: ys else y :: insertByKey x ys

/-- Stable sort by `sortKey`, modelling `Array.prototype.sort` with the
numeric comparator (stable per ECMA-262). -/
def sortByKey (l : List VResult) : List VResult := l.foldr insertByKey []

/-- `performValidation`: build the rows, then sort them by serial key. -/
def performValidation (excel : List AppEvent) (poster : List PosterEvent) :
    List VResult :=
  sortByKey (performValidationUnsorted excel poster)

/-! ### Concrete fixtures used by the claim theorems -/

/-- The ten built-in rules (`INITIAL_TIME_FORMATS` in `constants.ts`). -/
def INITIAL_TIME_FORMATS : List TimeFormatItem :=
  [⟨"1", "X月X日", "^\\d\x7b1,2\x7d月\\d\x7b1,2\x7d日$", true⟩,
   ⟨"2", "X月X日-X月X日", "^\\d\x7b1,2\x7d月\\d\x7b1,2\x7d日[-\\s]+\\d\x7b1,2\x7d月\\d\x7b1,2\x7d日$", true⟩,
   ⟨"3", "X月", "^\\d\x7b1,2\x7d月$", true⟩,
   ⟨"4", "X月上旬/中旬/下旬", "^\\d\x7b1,2\x7d月[上中下]旬$", true⟩,
   ⟨"5", "每周固定时间", "^每周[一二三四五六日、\\s]+\\d\x7b1,2\x7d:\\d\x7b2\x7d-\\d\x7b1,2\x7d:\\d\x7b2\x7d$", true⟩,
   ⟨"6", "多日期(顿号/空格分隔)", "^\\d\x7b1,2\x7d月\\d\x7b1,2\x7d日([、\\s]+\\d\x7b1,2\x7d月\\d\x7b1,2\x7d日)*$", true⟩,
   ⟨"7", "X月-X月", "^\\d\x7b1,2\x7d月-\\d\x7b1,2\x7d月$", true⟩,
   ⟨"8", "全年", "^全年$", true⟩,
   ⟨"9", "X年X月X日-X年X月X日", "^\\d\x7b4\x7d年\\d\x7b1,2\x7d月\\d\x7b1,2\x7d日[-\\s]+\\d\x7b4\x7d年\\d\x7b1,2\x7d月\\d\x7b1,2\x7d日$", true⟩,
   ⟨"10", "X年X月X日", "^\\d\x7b4\x7d年\\d\x7b1,2\x7d月\\d\x7b1,2\x7d日$", true⟩]

/-- The built-in `X月X日` rule alone. -/
def fmtXmXd : TimeFormatItem := ⟨"1", "X月X日", "^\\d\x7b1,2\x7d月\\d\x7b1,2\x7d日$", true⟩

/-- The built-in range rule alone. -/
def fmtRange : TimeFormatItem :=
  ⟨"2", "X月X日-X月X日", "^\\d\x7b1,2\x7d月\\d\x7b1,2\x7d日[-\\s]+\\d\x7b1,2\x7d月\\d\x7b1,2\x7d日$", true⟩

/-- The built-in year-range rule alone. -/
def fmtYearRange : TimeFormatItem :=
  ⟨"9", "X年X月X日-X年X月X日", "^\\d\x7b4\x7d年\\d\x7b1,2\x7d月\\d\x7b1,2\x7d日[-\\s]+\\d\x7b4\x7d年\\d\x7b1,2\x7d月\\d\x7b1,2\x7d日$", true⟩

/-- A user rule whose pattern is the unanchored literal `月`. -/
def ruleMoon : TimeFormatItem := ⟨"u1", "loose", "月", false⟩

/-- A user rule matching exactly the empty cleaned string. -/
def ruleEmptyOk : TimeFormatItem := ⟨"u2", "empty", "^$", false⟩

/-- A user rule whose pattern `(` does not compile. -/
def ruleBad : TimeFormatItem := ⟨"u3", "bad", "(", false⟩

/-- A one-entry address library. -/
def lib1 : List AddressLibraryItem := [⟨"1", "文化宫篮球馆"⟩]

/-- Excel row with serial `"0"`. -/
def evSerial0 : AppEvent := ⟨"a", "0", "书法比赛", "5月1日", "文化宫球馆", true, true, none⟩

/-- Excel row with serial `"1"`. -/
def evSerial1 : AppEvent := ⟨"b", "1", "围棋公开课", "5月2日", "文化宫围棋天地", true, true, none⟩

/-- A single-row table whose first cell is numeric and which contains no
header keywords. -/
def rowsOne : List (List String) := [["1", "书法比赛", "5月1日", "文化宫球馆"]]

/-- A two-row keyword-free table whose first cell is numeric. -/
def rowsTwo : List (List String) :=
  [["1", "书法比赛", "5月1日", "文化宫球馆"], ["2", "象棋角逐", "5月2日", "文化宫球馆"]]

/-! ### Infrastructure lemmas: substring tests and the regex matcher -/

theorem listPrefixB_iff (n : List Char) : ∀ h : List Char, listPrefixB n h = true ↔ n <+: h := by
  induction n with
  | nil => intro h; simp [listPrefixB]
  | cons a as ih =>
    intro h
    cases h with
    | nil => simp [listPrefixB]
    | cons b bs => simp [listPrefixB, List.cons_prefix_cons, ih]

theorem listInfixB_iff (n h : List Char) : listInfixB n h = true ↔ n <:+: h := by
  unfold listInfixB
  rw [List.any_eq_true]
  constructor
  · rintro ⟨t, ht, hp⟩
    rw [List.mem_tails] at ht
    exact List.infix_iff_prefix_suffix.mpr ⟨t, (listPrefixB_iff n t).mp hp, ht⟩
  · intro hinf
    obtain ⟨t, h1, h2⟩ := List.infix_iff_prefix_suffix.mp hinf
    exact ⟨t, (List.mem_tails _ _).mpr h2, (listPrefixB_iff n t).mpr h1⟩

theorem jsIncludes_iff (hay needle : String) :
    jsIncludes hay needle = true ↔ needle.data <:+: hay.data :=
  listInfixB_iff needle.data hay.data

theorem rmatch_fail_inv {s : List Char} : ¬ RMatch .fail s := by
  intro h; cases h

theorem rmatch_eps_inv {s : List Char} : RMatch .eps s → s = [] := by
  intro h; cases h; rfl

theorem rmatch_cls_inv {items : List CItem} {s : List Char} :
    RMatch (.cls items) s → ∃ c, s = [c] ∧ clsMatch items c = true := by
  intro h
  cases h with
  | cls hc => exact ⟨_, rfl, hc⟩

theorem rmatch_alt_inv {r1 r2 : Regex} {s : List Char} :
    RMatch (.alt r1 r2) s → RMatch r1 s ∨ RMatch r2 s := by
  intro h
  cases h with
  | altL h => exact Or.inl h
  | altR h => exact Or.inr h

theorem rmatch_cat_inv {r1 r2 : Regex} {s : List Char} :
    RMatch (.cat r1 r2) s → ∃ s1 s2, s = s1 ++ s2 ∧ RMatch r1 s1 ∧ RMatch r2 s2 := by
  intro h
  cases h with
  | cat h1 h2 => exact ⟨_, _, rfl, h1, h2⟩

theorem rmatch_star_inv {r : Regex} {s : List Char} :
    RMatch (.star r) s →
    s = [] ∨ ∃ c s1 s2, s = (c :: s1) ++ s2 ∧ RMatch r (c :: s1) ∧ RMatch (.star r) s2 := by
  intro h
  cases h with
  | starNil => exact Or.inl rfl
  | starCons h1 h2 => exact Or.inr ⟨_, _, _, rfl, h1, h2⟩

theorem nullable_iff (r : Regex) : nullable r = true ↔ RMatch r [] := by
  induction r with
  | fail => simp only [nullable, Bool.false_eq_true, false_iff]; exact rmatch_fail_inv
  | eps => simp only [nullable, true_iff]; exact RMatch.eps
  | cls items =>
    simp only [nullable, Bool.false_eq_true, false_iff]
    intro h
    obtain ⟨c, hc, -⟩ := rmatch_cls_inv h
    cases hc
  | alt r1 r2 ih1 ih2 =>
    simp only [nullable, Bool.or_eq_true, ih1, ih2]
    constructor
    · rintro (h | h)
      · exact RMatch.altL h
      · exact RMatch.altR h
    · intro h; exact rmatch_alt_inv h
  | cat r1 r2 ih1 ih2 =>
    simp only [nullable, Bool.and_eq_true, ih1, ih2]
    constructor
    · rintro ⟨h1, h2⟩; exact RMatch.cat h1 h2
    · intro h
      obtain ⟨s1, s2, hs, h1, h2⟩ := rmatch_cat_inv h
      obtain ⟨hs1, hs2⟩ := List.append_eq_nil.mp hs.symm
      subst hs1; subst hs2
      exact ⟨h1, h2⟩
  | star r _ =>
    simp only [nullable, true_iff]
    exact RMatch.starNil

theorem rderiv_iff (r : Regex) (c : Char) :
    ∀ s : List Char, RMatch (rderiv r c) s ↔ RMatch r (c :: s) := by
  induction r with
  | fail =>
    intro s
    constructor
    · intro h; exact absurd h rmatch_fail_inv
    · intro h; exact absurd h rmatch_fail_inv
  | eps =>
    intro s
    constructor
    · intro h; exact absurd h rmatch_fail_inv
    · intro h; cases rmatch_eps_inv h
  | cls items =>
    intro s
    simp only [rderiv]
    by_cases hc : clsMatch items c = true
    · rw [if_pos hc]
      constructor
      · intro h; rw [rmatch_eps_inv h]; exact RMatch.cls hc
      · intro h
        obtain ⟨c0, hc0, -⟩ := rmatch_cls_inv h
        obtain ⟨-, hs⟩ := List.cons_eq_cons.mp hc0.symm
        rw [← hs]; exact RMatch.eps
    · rw [if_neg hc]
      constructor
      · intro h; exact absurd h rmatch_fail_inv
      · intro h
        obtain ⟨c0, hc0, hm⟩ := rmatch_cls_inv h
        obtain ⟨hc1, -⟩ := List.cons_eq_cons.mp hc0.symm
        rw [hc1] at hm
        exact absurd hm hc
  | alt r1 r2 ih1 ih2 =>
    intro s
    simp only [rderiv]
    constructor
    · intro h
      rcases rmatch_alt_inv h with h | h
      · exact RMatch.altL ((ih1 s).mp h)
      · exact RMatch.altR ((ih2 s).mp h)
    · intro h
      rcases rmatch_alt_inv h with h | h
      · exact RMatch.altL ((ih1 s).mpr h)
      · exact RMatch.altR ((ih2 s).mpr h)
  | cat r1 r2 ih1 ih2 =>
    intro s
    simp only [rderiv]
    by_cases hn : nullable r1 = true
    · rw [if_pos hn]
      constructor
      · intro h
        rcases rmatch_alt_inv h with h | h
        · obtain ⟨s1, s2, hs, h1, h2⟩ := rmatch_cat_inv h
          subst hs
          exact RMatch.cat ((ih1 s1).mp h1) h2
        · exact RMatch.cat ((nullable_iff r1).mp hn) ((ih2 s).mp h)
      · intro h
        obtain ⟨s1, s2, hs, h1, h2⟩ := rmatch_cat_inv h
        cases s1 with
        | nil =>
            simp only [List.nil_append] at hs
            subst hs
            exact RMatch.altR ((ih2 s).mpr h2)
        | cons a as =>
            simp only [List.cons_append] at hs
            obtain ⟨ha, hs2⟩ := List.cons_eq_cons.mp hs
            subst ha
            subst hs2
            exact RMatch.altL (RMatch.cat ((ih1 as).mpr h1) h2)
    · rw [if_neg hn]
      constructor
      · intro h
        obtain ⟨s1, s2, hs, h1, h2⟩ := rmatch_cat_inv h
        subst hs
        exact RMatch.cat ((ih1 s1).mp h1) h2
      · intro h
        obtain ⟨s1, s2, hs, h1, h2⟩ := rmatch_cat_inv h
        cases s1 with
        | nil =>
            simp only [List.nil_append] at hs
            subst hs
            exact absurd ((nullable_iff r1).mpr h1) hn
        | cons a as =>
            simp only [List.cons_append] at hs
            obtain ⟨ha, hs2⟩ := List.cons_eq_cons.mp hs
            subst ha
            subst hs2
            exact RMatch.cat ((ih1 as).mpr h1) h2
  | star r ih =>
    intro s
    simp only [rderiv]
    constructor
    · intro h
      obtain ⟨s1, s2, hs, h1, h2⟩ := rmatch_cat_inv h
      subst hs
      exact RMatch.starCons ((ih s1).mp h1) h2
    · intro h
      rcases rmatch_star_inv h with h0 | ⟨c0, s1, s2, hs, h1, h2⟩
      · cases h0
      · simp only [List.cons_append] at hs
        obtain ⟨hc0, hs2⟩ := List.cons_eq_cons.mp hs
        subst hc0
        subst hs2
        exact RMatch.cat ((ih s1).mpr h1) h2

theorem fullMatchL_iff (cs : List Char) : ∀ r : Regex, fullMatchL r cs = true ↔ RMatch r cs := by
  induction cs with
  | nil => intro r; exact nullable_iff r
  | cons c cs ih =>
    intro r
    have hstep : fullMatchL r (c :: cs) = fullMatchL (rderiv r c) cs := rfl
    rw [hstep, ih (rderiv r c)]
    exact rderiv_iff r c cs

theorem regexTest_iff (cr : CompiledRegex) (s : String) :
    regexTest cr s = true ↔ crMatchProp cr s := by
  obtain ⟨aS, aE, re⟩ := cr
  unfold crMatchProp
  cases aS <;> cases aE <;> simp only [regexTest]
  · rw [List.any_eq_true]
    constructor
    · rintro ⟨t, ht, hin⟩
      rw [List.mem_tails] at ht
      rw [List.any_eq_true] at hin
      obtain ⟨m, hm, hf⟩ := hin
      rw [List.mem_inits] at hm
      obtain ⟨pre, hpre⟩ := ht
      obtain ⟨suf, hsuf⟩ := hm
      refine ⟨pre, m, suf, ?_, ?_, ?_, (fullMatchL_iff m re).mp hf⟩
      · rw [← hsuf] at hpre
        rw [← hpre]
        exact (List.append_assoc pre m suf).symm
      · intro h; exact absurd h (by decide)
      · intro h; exact absurd h (by decide)
    · rintro ⟨pre, mid, suf, hs, -, -, hm⟩
      have hs2 : pre ++ (mid ++ suf) = s.data := by
        rw [← List.append_assoc]
        exact hs.symm
      refine ⟨mid ++ suf, (List.mem_tails _ _).mpr ⟨pre, hs2⟩, ?_⟩
      rw [List.any_eq_true]
      exact ⟨mid, (List.mem_inits _ _).mpr ⟨suf, rfl⟩, (fullMatchL_iff mid re).mpr hm⟩
  · rw [List.any_eq_true]
    constructor
    · rintro ⟨t, ht, hf⟩
      rw [List.mem_tails] at ht
      obtain ⟨pre, hpre⟩ := ht
      refine ⟨pre, t, [], ?_, ?_, fun _ => rfl, (fullMatchL_iff t re).mp hf⟩
      · rw [List.append_nil, ← hpre]
      · intro h; exact absurd h (by decide)
    · rintro ⟨pre, mid, suf, hs, -, hsuf, hm⟩
      rw [hsuf (by trivial), List.append_nil] at hs
      exact ⟨mid, (List.mem_tails _ _).mpr ⟨pre, hs.symm⟩, (fullMatchL_iff mid re).mpr hm⟩
  · rw [List.any_eq_true]
    constructor
    · rintro ⟨t, ht, hf⟩
      rw [List.mem_inits] at ht
      obtain ⟨suf, hsuf⟩ := ht
      refine ⟨[], t, suf, ?_, fun _ => rfl, ?_, (fullMatchL_iff t re).mp hf⟩
      · rw [List.nil_append, ← hsuf]
      · intro h; exact absurd h (by decide)
    · rintro ⟨pre, mid, suf, hs, hpre, -, hm⟩
      rw [hpre (by trivial), List.nil_append] at hs
      exact ⟨mid, (List.mem_inits _ _).mpr ⟨suf, hs.symm⟩, (fullMatchL_iff mid re).mpr hm⟩
  · constructor
    · intro hf
      refine ⟨[], s.data, [], ?_, fun _ => rfl, fun _ => rfl, (fullMatchL_iff s.data re).mp hf⟩
      rw [List.nil_append, List.append_nil]
    · rintro ⟨pre, mid, suf, hs, hpre, hsuf, hm⟩
      rw [hpre (by trivial), hsuf (by trivial), List.nil_append, List.append_nil] at hs
      rw [hs]
      exact (fullMatchL_iff mid re).mpr hm

/-! ### Infrastructure lemmas: validation messages and the existence loop -/

theorem mem_monthMsg (m : Nat) : '份' ∈ (monthMsg m).data := by
  unfold monthMsg
  rw [String.data_append, String.data_append]
  exact List.mem_append_left _ (List.mem_append_left _ (by decide))

theorem mem_dayMsg (m d : Nat) : '设' ∈ (dayMsg m d).data := by
  unfold dayMsg
  rw [String.data_append, String.data_append, String.data_append, String.data_append,
      String.data_append]
  exact List.mem_append_left _
    (List.mem_append_left _ (List.mem_append_right _ (by decide)))

theorem monthMsg_ne (m : Nat) {t : String} (ht : '份' ∉ t.data) : monthMsg m ≠ t := by
  intro h
  exact ht (h ▸ mem_monthMsg m)

theorem dayMsg_ne (m d : Nat) {t : String} (ht : '设' ∉ t.data) : dayMsg m d ≠ t := by
  intro h
  exact ht (h ▸ mem_dayMsg m d)

theorem firstExistenceError_shape :
    ∀ (l : List DatePair) (msg : String), firstExistenceError l = some msg →
      (∃ a, msg = monthMsg a) ∨ ∃ a b, msg = dayMsg a b := by
  intro l
  induction l with
  | nil => intro msg h; simp [firstExistenceError] at h
  | cons p rest ih =>
    intro msg h
    unfold firstExistenceError at h
    by_cases h1 : p.m < 1 ∨ 12 < p.m
    · rw [if_pos h1] at h
      exact Or.inl ⟨p.m, (Option.some.inj h).symm⟩
    · rw [if_neg h1] at h
      by_cases h2 : p.d < 1 ∨ daysInMonth.getD p.m 0 < p.d
      · rw [if_pos h2] at h
        exact Or.inr ⟨p.m, p.d, (Option.some.inj h).symm⟩
      · rw [if_neg h2] at h
        exact ih msg h

theorem firstExistenceError_eq_none {l : List DatePair} (h : ∀ p ∈ l, pairOk p) :
    firstExistenceError l = none := by
  induction l with
  | nil => rfl
  | cons p rest ih =>
    have hp := h p (List.mem_cons_self p rest)
    obtain ⟨hm1, hm2, hd1, hd2⟩ := hp
    unfold firstExistenceError
    rw [if_neg (by omega), if_neg (by omega)]
    exact ih (fun q hq => h q (List.mem_cons_of_mem p hq))

theorem firstExistenceError_of_bad :
    ∀ l : List DatePair, (∃ p ∈ l, ¬ pairOk p) →
      ∃ q ∈ l, ¬ pairOk q ∧ firstExistenceError l = some (existMsg q) := by
  intro l
  induction l with
  | nil => rintro ⟨p, hp, -⟩; cases hp
  | cons a rest ih =>
    rintro ⟨p, hp, hbad⟩
    by_cases ha : pairOk a
    · obtain ⟨hm1, hm2, hd1, hd2⟩ := ha
      have hrest : p ∈ rest := by
        rcases List.mem_cons.mp hp with h | h
        · subst h; exact absurd ⟨hm1, hm2, hd1, hd2⟩ hbad
        · exact h
      obtain ⟨q, hq, hqbad, hfe⟩ := ih ⟨p, hrest, hbad⟩
      refine ⟨q, List.mem_cons_of_mem a hq, hqbad, ?_⟩
      unfold firstExistenceError
      rw [if_neg (by omega), if_neg (by omega)]
      exact hfe
    · refine ⟨a, List.mem_cons_self a rest, ha, ?_⟩
      unfold firstExistenceError existMsg
      by_cases h1 : a.m < 1 ∨ 12 < a.m
      · rw [if_pos h1, if_pos h1]
      · rw [if_neg h1, if_neg h1]
        have h2 : a.d < 1 ∨ daysInMonth.getD a.m 0 < a.d := by
          unfold pairOk at ha
          omega
        rw [if_pos h2]

theorem checkLogicalCore_of_existence {dates : List DatePair} {msg : String}
    (hne : dates ≠ []) (hfe : firstExistenceError dates = some msg)
    (rangeSep yearTok : Bool) :
    checkLogicalCore dates rangeSep yearTok = some msg := by
  unfold checkLogicalCore
  rw [if_neg (by simp [List.isEmpty_iff, hne]), hfe]

theorem checkLogicalCore_shape {dates : List DatePair} {rangeSep yearTok : Bool}
    {msg : String} (h : checkLogicalCore dates rangeSep yearTok = some msg) :
    (∃ a, msg = monthMsg a) ∨ (∃ a b, msg = dayMsg a b) ∨ msg = rangeMsg := by
  unfold checkLogicalCore at h
  by_cases he : dates.isEmpty = true
  · rw [if_pos he] at h; cases h
  · rw [if_neg he] at h
    cases hfe : firstExistenceError dates with
    | some m0 =>
        rw [hfe] at h
        rcases firstExistenceError_shape dates m0 hfe with h1 | h1
        · exact Or.inl (by rw [← Option.some.inj h]; exact h1)
        · exact Or.inr (Or.inl (by rw [← Option.some.inj h]; exact h1))
    | none =>
        rw [hfe] at h
        by_cases hc : dates.length = 2 ∧ rangeSep = true
        · rw [if_pos hc] at h
          by_cases h12 : (dates.getD 0 ⟨0, 0⟩).m = 12 ∧ (dates.getD 1 ⟨0, 0⟩).m = 1
          · rw [if_pos h12] at h; cases h
          · rw [if_neg h12] at h
            by_cases hlt : (dates.getD 1 ⟨0, 0⟩).m * 100 + (dates.getD 1 ⟨0, 0⟩).d <
                (dates.getD 0 ⟨0, 0⟩).m * 100 + (dates.getD 0 ⟨0, 0⟩).d
            · rw [if_pos hlt] at h
              by_cases hy : yearTok = true
              · rw [if_pos hy] at h; cases h
              · rw [if_neg hy] at h
                exact Or.inr (Or.inr (Option.some.inj h).symm)
            · rw [if_neg hlt] at h; cases h
        · rw [if_neg hc] at h; cases h

theorem checkLogicalValidity_shape {str : String} {msg : String}
    (h : checkLogicalValidity str = some msg) :
    (∃ a, msg = monthMsg a) ∨ (∃ a b, msg = dayMsg a b) ∨ msg = rangeMsg :=
  checkLogicalCore_shape h

theorem checkLogicalValidity_msg_ne_empty {str msg : String}
    (h : checkLogicalValidity str = some msg) : msg ≠ emptyMsg := by
  rcases checkLogicalValidity_shape h with ⟨a, rfl⟩ | ⟨a, b, rfl⟩ | rfl
  · exact monthMsg_ne a (by decide)
  · exact dayMsg_ne a b (by decide)
  · decide

theorem checkLogicalValidity_msg_nonempty {str msg : String}
    (h : checkLogicalValidity str = some msg) : msg ≠ "" := by
  rcases checkLogicalValidity_shape h with ⟨a, rfl⟩ | ⟨a, b, rfl⟩ | rfl
  · exact monthMsg_ne a (by decide)
  · exact dayMsg_ne a b (by decide)
  · decide

/-! ### Infrastructure lemmas: the stable sort and malformed-rule skipping -/

theorem mem_insertByKey {x a : VResult} {l : List VResult} :
    a ∈ insertByKey x l ↔ a = x ∨ a ∈ l := by
  induction l with
  | nil => simp [insertByKey]
  | cons y ys ih =>
    unfold insertByKey
    by_cases h : sortKey x ≤ sortKey y
    · rw [if_pos h]
      simp [List.mem_cons]
    · rw [if_neg h]
      simp only [List.mem_cons, ih]
      tauto

theorem pairwise_insertByKey {x : VResult} {l : List VResult}
    (h : l.Pairwise (fun a b => sortKey a ≤ sortKey b)) :
    (insertByKey x l).Pairwise (fun a b => sortKey a ≤ sortKey b) := by
  induction l with
  | nil => simp [insertByKey]
  | cons y ys ih =>
    rw [List.pairwise_cons] at h
    obtain ⟨hy, hys⟩ := h
    unfold insertByKey
    by_cases hxy : sortKey x ≤ sortKey y
    · rw [if_pos hxy]
      rw [List.pairwise_cons]
      refine ⟨?_, ?_⟩
      · intro b hb
        rcases List.mem_cons.mp hb with rfl | hb
        · exact hxy
        · exact hxy.trans (hy b hb)
      · rw [List.pairwise_cons]
        exact ⟨hy, hys⟩
    · rw [if_neg hxy]
      rw [List.pairwise_cons]
      refine ⟨?_, ih hys⟩
      intro b hb
      rcases mem_insertByKey.mp hb with rfl | hb
      · exact le_of_not_le hxy
      · exact hy b hb

theorem sortByKey_pairwise (l : List VResult) :
    (sortByKey l).Pairwise (fun a b => sortKey a ≤ sortKey b) := by
  induction l with
  | nil => simp [sortByKey]
  | cons a l ih => exact pairwise_insertByKey ih

theorem filter_insertByKey (x : VResult) (l : List VResult) (k : JsNum) :
    (insertByKey x l).filter (fun r => decide (sortKey r = k)) =
      ((x :: l).filter (fun r => decide (sortKey r = k))) := by
  induction l with
  | nil => rfl
  | cons y ys ih =>
    unfold insertByKey
    by_cases hxy : sortKey x ≤ sortKey y
    · rw [if_pos hxy]
    · rw [if_neg hxy]
      have hlt : sortKey y < sortKey x := lt_of_not_le hxy
      by_cases hk : sortKey x = k
      · have hyk : ¬ sortKey y = k := by
          intro hh
          rw [hh, ← hk] at hlt
          exact lt_irrefl _ hlt
        simp only [List.filter_cons, ih]
        simp [hk, hyk]
      · simp only [List.filter_cons, ih]
        simp [hk]

theorem sortByKey_filter (l : List VResult) (k : JsNum) :
    (sortByKey l).filter (fun r => decide (sortKey r = k)) =
      l.filter (fun r => decide (sortKey r = k)) := by
  induction l with
  | nil => rfl
  | cons a l ih =>
    have hstep : sortByKey (a :: l) = insertByKey a (sortByKey l) := rfl
    rw [hstep, filter_insertByKey]
    simp only [List.filter_cons, ih]

theorem stage1Match_skip_malformed {bad : TimeFormatItem}
    (hbad : compileRegex bad.pattern = none) (s : String)
    (pre post : List TimeFormatItem) :
    stage1Match s (pre ++ bad :: post) = stage1Match s (pre ++ post) := by
  unfold stage1Match
  simp only [List.any_append, List.any_cons, hbad, Bool.false_or]

theorem validateTimeFormat_skip_malformed {bad : TimeFormatItem}
    (hbad : compileRegex bad.pattern = none) (s : String)
    (pre post : List TimeFormatItem) :
    validateTimeFormat s (pre ++ bad :: post) = validateTimeFormat s (pre ++ post) := by
  unfold validateTimeFormat
  rw [stage1Match_skip_malformed hbad (cleanTime s) pre post]

/-! ### Claim C1 — stage-1 pattern matching -/

/-- Claim C1 counterexample: with the rule set containing the single
unanchored pattern `月`, the string `1月2日` passes stage 1 (and the whole
validation) although the pattern only matches the proper substring `月`, not
the whole cleaned string — refuting "a rule whose pattern matches only a
proper substring of the cleaned string does not make the string pass
stage 1". -/
theorem spec_C1_counterexample :
    stage1Match (cleanTime "1月2日") [ruleMoon] = true ∧
    fullMatchPattern ruleMoon.pattern "1月2日" = false ∧
    validateTimeFormat "1月2日" [ruleMoon] = ⟨true, none⟩ := by
  decide

/-- Claim C1 (amended): stage 1 of `validate(s, R)` succeeds exactly when at
least one rule's pattern, compiled with its own anchors, matches somewhere
inside the cleaned string under JS `RegExp.prototype.test` semantics — i.e.
some split `pre ++ mid ++ suf` of the cleaned string has `mid` in the
language of the pattern body, with `pre`/`suf` forced empty only by an
explicit `^`/`$` anchor of that pattern.  Full-match behaviour therefore
holds only for patterns that carry both anchors themselves; an unanchored
pattern matching a proper substring also passes. -/
theorem spec_C1_amended (s : String) (formats : List TimeFormatItem) :
    stage1Match (cleanTime s) formats = true ↔
      ∃ fmt ∈ formats, ∃ cr, compileRegex fmt.pattern = some cr ∧
        crMatchProp cr (cleanTime s) := by
  unfold stage1Match
  rw [List.any_eq_true]
  constructor
  · rintro ⟨fmt, hmem, hfmt⟩
    cases hc : compileRegex fmt.pattern with
    | none => rw [hc] at hfmt; cases hfmt
    | some cr =>
        rw [hc] at hfmt
        exact ⟨fmt, hmem, cr, hc, (regexTest_iff cr (cleanTime s)).mp hfmt⟩
  · rintro ⟨fmt, hmem, cr, hc, hp⟩
    refine ⟨fmt, hmem, ?_⟩
    rw [hc]
    exact (regexTest_iff cr (cleanTime s)).mpr hp

/-! ### Claim C2 — range ordering with rollover / year exceptions -/

/-- Claim C2 counterexample: `12月40日-1月1日` extracts exactly the two pairs
(12,40) and (1,1) and contains a range separator, its first-pair month is 12
and its second-pair month is 1, yet validation does **not** pass: the
existence check runs first and fails on day 40 — refuting "a first-pair month
of 12 together with a second-pair month of 1 (year rollover) is always
accepted". -/
theorem spec_C2_counterexample :
    extractDates "12月40日-1月1日".data = [⟨12, 40⟩, ⟨1, 1⟩] ∧
    hasRangeSep "12月40日-1月1日".data = true ∧
    checkLogicalValidity "12月40日-1月1日" = some "12月只有31天，无法设置为40日" ∧
    validateTimeFormat "12月40日-1月1日" [fmtRange] =
      ⟨false, some "12月只有31天，无法设置为40日"⟩ := by
  decide

/-- Claim C2 (amended): for every cleaned time string from which stage 2
extracts exactly two (month, day) pairs, which contains a range separator
(hyphen or `至`), and **whose two extracted pairs both pass the preceding
month/day existence check** (which otherwise fails first with its own
message), stage 2 fails with "end time cannot precede start time" exactly
when `month*100+day` of the first pair exceeds that of the second — except
that a first-pair month of 12 with a second-pair month of 1 is accepted, and
the ordering check is skipped whenever the string contains a 4-digit-year
token; the spec's two accepted range examples are re-checked concretely. -/
theorem spec_C2_amended :
    (∀ (str : String) (p1 p2 : DatePair),
        extractDates str.data = [p1, p2] → pairOk p1 → pairOk p2 →
        hasRangeSep str.data = true →
        checkLogicalValidity str =
          (if p1.m = 12 ∧ p2.m = 1 then none
           else if p2.m * 100 + p2.d < p1.m * 100 + p1.d then
             if hasYearToken str.data = true then none else some rangeMsg
           else none)) ∧
    validateTimeFormat "12月31日-1月1日" [fmtRange] = ⟨true, none⟩ ∧
    validateTimeFormat "2024年12月31日-2025年1月5日" [fmtYearRange] = ⟨true, none⟩ := by
  refine ⟨?_, by decide, by decide⟩
  intro str p1 p2 hext h1 h2 hsep
  have hall : ∀ p ∈ [p1, p2], pairOk p := by
    intro p hp
    simp only [List.mem_cons, List.not_mem_nil, or_false] at hp
    rcases hp with rfl | rfl
    · exact h1
    · exact h2
  unfold checkLogicalValidity checkLogicalCore
  rw [hext, if_neg (by simp), firstExistenceError_eq_none hall, hsep]
  rw [if_pos ⟨rfl, rfl⟩]
  rfl

/-- Claim C2 witness: the amended rule applied at `5月1日-4月1日` — a
backwards range with valid pairs, no rollover and no year token — yields the
"end before start" failure. -/
theorem spec_C2_witness :
    checkLogicalValidity "5月1日-4月1日" = some rangeMsg := by
  have h := spec_C2_amended.1 "5月1日-4月1日" ⟨5, 1⟩ ⟨4, 1⟩ (by decide) (by decide)
    (by decide) (by decide)
  rw [h]
  decide

/-! ### Claim C3 — stage-2 existence check -/

/-- Claim C3: whenever any pair extracted in stage 2 violates
`1 ≤ month ≤ 12` or `1 ≤ day ≤ daysInMonth[month]` (February capped at 29),
stage 2 fails with the message naming the offending month/day (the first
offending pair's message); in particular `2月30日` is invalid for every rule
set whose patterns match it, with the February day-count message. -/
theorem spec_C3 :
    (∀ (str : String) (p : DatePair), p ∈ extractDates str.data → ¬ pairOk p →
        ∃ q ∈ extractDates str.data, ¬ pairOk q ∧
          checkLogicalValidity str = some (existMsg q)) ∧
    (∀ formats : List TimeFormatItem,
        stage1Match (cleanTime "2月30日") formats = true →
        validateTimeFormat "2月30日" formats =
          ⟨false, some "2月只有29天，无法设置为30日"⟩) := by
  constructor
  · intro str p hp hbad
    obtain ⟨q, hq, hqbad, hfe⟩ :=
      firstExistenceError_of_bad (extractDates str.data) ⟨p, hp, hbad⟩
    refine ⟨q, hq, hqbad, ?_⟩
    have hne : extractDates str.data ≠ [] := by
      intro h0
      rw [h0] at hp
      cases hp
    exact checkLogicalCore_of_existence hne hfe _ _
  · intro formats hs
    unfold validateTimeFormat
    rw [if_neg (by decide), hs, if_neg (by decide)]
    have hc : checkLogicalValidity (cleanTime "2月30日") =
        some "2月只有29天，无法设置为30日" := by decide
    rw [hc]

/-- Claim C3 witness: the built-in `X月X日` rule matches `2月30日`, and the
claim's theorem then yields the concrete February failure; the general part
is also instantiated at the offending pair (2, 30). -/
theorem spec_C3_witness :
    validateTimeFormat "2月30日" [fmtXmXd] =
      ⟨false, some "2月只有29天，无法设置为30日"⟩ ∧
    (∃ q ∈ extractDates "2月30日".data, ¬ pairOk q ∧
        checkLogicalValidity "2月30日" = some (existMsg q)) :=
  ⟨spec_C3.2 [fmtXmXd] (by decide),
   spec_C3.1 "2月30日" ⟨2, 30⟩ (by decide) (by decide)⟩

/-! ### Claim C4 — the empty-input check -/

/-- Claim C4 counterexample: a whitespace-only input is *not* caught by the
emptiness guard (`!timeStr` is false for `" "`): with a rule matching the
empty cleaned string the validation even succeeds, and with the stock rules
it fails with the no-known-format message rather than the "empty" message —
refuting "every input string that is empty after trimming fails immediately
with the empty message". -/
theorem spec_C4_counterexample :
    jsTrimStr " " = "" ∧
    validateTimeFormat " " [ruleEmptyOk] = ⟨true, none⟩ ∧
    validateTimeFormat " " INITIAL_TIME_FORMATS = ⟨false, some noFormatMsg⟩ := by
  decide

/-- Claim C4 (amended): `validate` returns the immediate `时间不能为空`
failure exactly when the **raw** input string is empty — the guard does not
trim, so whitespace-only inputs instead proceed to cleaning and pattern
matching and never produce the empty-input message. -/
theorem spec_C4_amended (s : String) (formats : List TimeFormatItem) :
    validateTimeFormat s formats = ⟨false, some emptyMsg⟩ ↔ s = "" := by
  constructor
  · intro h
    by_contra hs
    unfold validateTimeFormat at h
    rw [if_neg hs] at h
    cases h1 : stage1Match (cleanTime s) formats with
    | false =>
        rw [h1] at h
        simp only [Bool.not_false, if_true, TimeValidation.mk.injEq, true_and,
          Option.some.injEq] at h
        exact absurd h (by decide)
    | true =>
        rw [h1] at h
        simp only [Bool.not_true, Bool.false_eq_true, if_false] at h
        cases hc : checkLogicalValidity (cleanTime s) with
        | none =>
            rw [hc] at h
            simp only [TimeValidation.mk.injEq] at h
            exact absurd h.1 (by decide)
        | some m =>
            rw [hc] at h
            simp only [TimeValidation.mk.injEq, true_and, Option.some.injEq] at h
            exact checkLogicalValidity_msg_ne_empty hc h
  · intro h
    subst h
    rfl

/-! ### Claim C5 — the final ordering of `reconcile` -/

/-- Claim C5 counterexample: the comparator key is `parseFloat(serial) || 9999`,
so a serial of `"0"` — which parses perfectly well as the float 0 — is
replaced by the 9999 sentinel and sorted *after* the serial `"1"`, refuting
"sorted ascending by each entry's serial parsed as a floating-point number;
[only] entries whose serial does not parse are placed after all parsable
ones". -/
theorem spec_C5_counterexample :
    jsParseFloat "0" = some (jsFin 0) ∧
    jsParseFloat "1" = some (jsFin 1) ∧
    jsFin 0 < jsFin 1 ∧
    (performValidation [evSerial0, evSerial1] []).map (fun r => r.serial) = ["1", "0"] := by
  refine ⟨by decide, by decide, ?_, by decide⟩
  simp [jsFin]

/-- Claim C5 (amended): the sequence returned by `reconcile` is sorted
ascending by the key `parseFloat(serial) || 9999` — i.e. a serial that fails
to parse **or parses to zero** is treated as the sentinel 9999 (so zero
serials, and serials parsing above 9999, are not placed where the raw parse
would put them) — and entries with equal keys keep the relative order they
had in the unsorted result list. -/
theorem spec_C5_amended (excel : List AppEvent) (poster : List PosterEvent) :
    (performValidation excel poster).Pairwise (fun a b => sortKey a ≤ sortKey b) ∧
    ∀ k : JsNum,
      (performValidation excel poster).filter (fun r => decide (sortKey r = k)) =
        (performValidationUnsorted excel poster).filter (fun r => decide (sortKey r = k)) := by
  constructor
  · exact sortByKey_pairwise (performValidationUnsorted excel poster)
  · intro k
    exact sortByKey_filter (performValidationUnsorted excel poster) k

/-! ### Claim C6 — location recommendation -/

/-- Claim C6 counterexample: for the empty input string `recommend` returns
`null` unconditionally (the `!input` guard), even though the library entry
`文化宫篮球馆` *does* contain the trimmed input `""` as a substring — refuting
"it returns null exactly when neither kind of entry exists". -/
theorem spec_C6_counterexample :
    getRecommendedLocation "" lib1 = none ∧
    jsIncludes "文化宫篮球馆" (jsTrimStr "") = true := by
  decide

/-- Claim C6 (amended): for every **non-empty** input string, `recommend`
trims the input and returns the name of the first library entry whose name
contains the trimmed input, else the first entry whose own name is a
substring of the trimmed input, else null — and null results exactly when
neither kind of entry exists; the empty input string returns null
immediately.  The spec's two concrete examples hold. -/
theorem spec_C6_amended :
    (∀ (input : String) (library : List AddressLibraryItem), input ≠ "" →
        getRecommendedLocation input library = recommendSpec input library ∧
        (getRecommendedLocation input library = none ↔
          ∀ item ∈ library,
            ¬ (jsTrimStr input).data <:+: item.name.data ∧
            ¬ item.name.data <:+: (jsTrimStr input).data)) ∧
    getRecommendedLocation "篮球馆" lib1 = some "文化宫篮球馆" ∧
    getRecommendedLocation "文化宫篮球馆(备注)" lib1 = some "文化宫篮球馆" := by
  refine ⟨?_, by decide, by decide⟩
  intro input library hne
  constructor
  · unfold getRecommendedLocation recommendSpec
    rw [if_neg hne]
  · unfold getRecommendedLocation
    rw [if_neg hne]
    cases hf1 : library.find? (fun item => jsIncludes item.name (jsTrimStr input)) with
    | some it =>
        simp only [hf1]
        constructor
        · intro h
          cases h
        · intro hall
          have hp := List.find?_some hf1
          have hmem : it ∈ library := List.mem_of_find?_eq_some hf1
          exact absurd ((jsIncludes_iff _ _).mp hp) (hall it hmem).1
    | none =>
        simp only [hf1]
        cases hf2 : library.find? (fun item => jsIncludes (jsTrimStr input) item.name) with
        | some it =>
            simp only [hf2]
            constructor
            · intro h
              cases h
            · intro hall
              have hp := List.find?_some hf2
              have hmem : it ∈ library := List.mem_of_find?_eq_some hf2
              exact absurd ((jsIncludes_iff _ _).mp hp) (hall it hmem).2
        | none =>
            simp only [hf2]
            constructor
            · intro _ item hmem
              rw [List.find?_eq_none] at hf1 hf2
              constructor
              · intro hin
                exact absurd ((jsIncludes_iff item.name (jsTrimStr input)).mpr hin)
                  (by simpa using hf1 item hmem)
              · intro hin
                exact absurd ((jsIncludes_iff (jsTrimStr input) item.name).mpr hin)
                  (by simpa using hf2 item hmem)
            · intro _
              trivial

/-- Claim C6 witness: the amended refinement applied at the non-empty input
`篮球馆` with the one-entry library. -/
theorem spec_C6_witness :
    getRecommendedLocation "篮球馆" lib1 = recommendSpec "篮球馆" lib1 :=
  (spec_C6_amended.1 "篮球馆" lib1 (by decide)).1

/-! ### Claim C7 — positional fallback of the column classifier -/

/-- Claim C7 counterexample: a single-row keyword-free table whose first cell
`"1"` converts to a number still gets the `[name, time, location]` layout
with no serial column, because the fallback only tests the first cell when
`rawData.length > 1` — refuting "if the first data cell of the first row
parses as a number it assumes columns [serial, name, time, location]". -/
theorem spec_C7_counterexample :
    findHeaderRow rowsOne = none ∧
    (firstCellNumber rowsOne).isSome = true ∧
    inferColMap rowsOne = ⟨none, some 0, some 1, some 2⟩ := by
  decide

/-- Claim C7 (amended): when no header row is identified, the classifier
assigns roles positionally — `[serial, name, time, location]` at `[0,1,2,3]`
when the table has **more than one row** and the first cell of the first row
converts to a number (`Number()` not NaN), and `[name, time, location]` at
`[0,1,2]` with no serial column otherwise (including every single-row
table). -/
theorem spec_C7_amended (rows : List (List String)) (h : findHeaderRow rows = none) :
    inferColMap rows =
      (if 1 < rows.length ∧ (firstCellNumber rows).isSome = true
       then ⟨some 0, some 1, some 2, some 3⟩
       else ⟨none, some 0, some 1, some 2⟩) := by
  unfold inferColMap
  rw [h]

/-- Claim C7 witness: the amended rule applied to a two-row keyword-free
table with a numeric first cell yields the serial-first layout. -/
theorem spec_C7_witness :
    inferColMap rowsTwo = ⟨some 0, some 1, some 2, some 3⟩ := by
  rw [spec_C7_amended rowsTwo (by decide)]
  decide

/-! ### Claim C8 — the regex synthesizer -/

/-- Claim C8: `synthesize` strips parentheticals, escapes metacharacters,
turns 4-digit runs into a year class and all other digit runs into the
1-to-2-digit class, and anchors the result; `synthesize("5.1")` yields
`^\d\x7b1,2\x7d\.\d\x7b1,2\x7d$`, which matches `5.1` and `12.25` but not
`5月1日`. -/
theorem spec_C8 :
    generateRegexFromTime "5.1" = "^\\d\x7b1,2\x7d\\.\\d\x7b1,2\x7d$" ∧
    generateRegexFromTime "2024年5月1日(线上)" =
      "^\\d\x7b4\x7d年\\d\x7b1,2\x7d月\\d\x7b1,2\x7d日$" ∧
    testPattern (generateRegexFromTime "5.1") "5.1" = true ∧
    testPattern (generateRegexFromTime "5.1") "12.25" = true ∧
    testPattern (generateRegexFromTime "5.1") "5月1日" = false := by
  decide

/-! ### Claim C9 — malformed stored patterns -/

/-- Claim C9: a rule whose pattern does not compile is treated as matching no
string: validation over a rule list containing it anywhere equals validation
over the list with it removed (the remaining rules are still evaluated), and
a string fully matching another well-formed rule still validates; the model
is total, so no error can propagate to the caller. -/
theorem spec_C9 :
    (∀ (s : String) (pre post : List TimeFormatItem) (bad : TimeFormatItem),
        compileRegex bad.pattern = none →
        validateTimeFormat s (pre ++ bad :: post) = validateTimeFormat s (pre ++ post)) ∧
    compileRegex ruleBad.pattern = none ∧
    validateTimeFormat "5月1日" [ruleBad, fmtXmXd] = ⟨true, none⟩ := by
  refine ⟨?_, by decide, by decide⟩
  intro s pre post bad hbad
  exact validateTimeFormat_skip_malformed hbad s pre post

/-- Claim C9 witness: dropping the uncompilable rule `(` from the front of a
rule list leaves validation unchanged. -/
theorem spec_C9_witness :
    validateTimeFormat "5月1日" ([] ++ ruleBad :: [fmtXmXd]) =
      validateTimeFormat "5月1日" ([] ++ [fmtXmXd]) :=
  spec_C9.1 "5月1日" [] [fmtXmXd] ruleBad (by decide)

/-! ### Claim C10 — a message exactly on failure -/

/-- Claim C10: every result of `validateTimeFormat` carries a message exactly
when it is invalid — each of the three failure paths (empty input, no
matching format, calendar-logic violation) yields a non-empty message, and
every success carries no message. -/
theorem spec_C10 (s : String) (formats : List TimeFormatItem) :
    ((validateTimeFormat s formats).isValid = true ∧
      (validateTimeFormat s formats).message = none) ∨
    ((validateTimeFormat s formats).isValid = false ∧
      ∃ m, (validateTimeFormat s formats).message = some m ∧ m ≠ "") := by
  unfold validateTimeFormat
  by_cases hs : s = ""
  · rw [if_pos hs]
    exact Or.inr ⟨rfl, emptyMsg, rfl, by decide⟩
  · rw [if_neg hs]
    cases h1 : stage1Match (cleanTime s) formats with
    | false =>
        rw [if_pos (by decide : (!false) = true)]
        exact Or.inr ⟨rfl, noFormatMsg, rfl, by decide⟩
    | true =>
        rw [if_neg (by decide : ¬ ((!true) = true))]
        cases hc : checkLogicalValidity (cleanTime s) with
        | none => exact Or.inl ⟨rfl, rfl⟩
        | some m => exact Or.inr ⟨rfl, m, rfl, checkLogicalValidity_msg_nonempty hc⟩
